import Mathlib

/-!
Verification of the scripts-orchestrator execution engine.

This file gives a shallow embedding, in Lean, of the core of the
scripts-orchestrator repository and proves properties of it:

* `shouldSkipExecution`, `hasGitChanges`, `updateCacheDisk` embed
  `src/lib/git-cache.js` (GitCache); the git child processes are abstracted
  by a `GitWorld` oracle recording the observable answers of the three
  external queries the class makes (rev-parse, cache file on disk,
  status --porcelain).
* `waitForUrl` embeds `HealthCheck.waitForUrl` from
  `src/lib/health-check.js` (lines 9-40); one HTTP probe is abstracted as a
  boolean oracle per attempt (`true` = the probe reported status 200), and
  the argument vector of the curl child process a probe spawns (line 14)
  is embedded as `curlArgs`.
* `executeCommand`, `processPhase`, `orchestratorRun` embed
  `Orchestrator.executeCommand` / `Orchestrator.run` from
  `src/lib/orchestrator.js` (lines 54-211 and 241-410).  The process
  manager's `runCommand` is abstracted by a `World` oracle giving the
  (success, capturedOutput) answer per (command string, attempt number);
  ghost trace fields (`invoked`, `ran`) record which executeCommand calls
  were entered and which commands were actually handed to the process
  manager.
* `cleanupProcess` embeds `ProcessManager.cleanupProcess` from
  `src/lib/index.js` (lines 344-534), producing the list of externally
  visible actions (kill commands run, signals sent, probes made) driven by
  a `CleanupWorld` oracle.

JavaScript truthiness of the strings and option fields that the code
branches on (`if (checkUrl)`, `retry_command || command`, `!cachedHash`,
and so on) is translated explicitly (`jsTruthyStr`, `jsOrStr`,
`jsOrPosNat`).
-/

/-- JavaScript truthiness of an optional string: `null`/`undefined` and the
empty string are falsy. -/
def jsTruthyStr : Option String → Bool
  | none => false
  | some s => s ≠ ""

/-- JavaScript `a || b` for an optional string `a` and string default `b`:
`null`, `undefined` and `""` fall through to the default. -/
def jsOrStr : Option String → String → String
  | none, d => d
  | some s, d => if s = "" then d else s

/-- JavaScript `a || b` for an optional number `a` and a numeric default:
`null`, `undefined` and `0` fall through to the default (used for
`dependency.health_check?.max_attempts || 20`). -/
def jsOrPosNat : Option Nat → Nat → Nat
  | none, d => d
  | some n, d => if n = 0 then d else n

/-! ## Git-State Cache (`src/lib/git-cache.js`) -/

/-- Oracle for the external git and filesystem state that `GitCache`
observes during one run.

* `revParse`: result of `git rev-parse HEAD` — `some` trimmed stdout on
  exit code 0, `none` on nonzero exit or spawn error
  (`getCurrentCommitHash` then returns null).
* `cachedHash`: trimmed content of the cache file, `none` when the file is
  missing or unreadable (`readCachedHash` then returns null).
* `statusPorcelain`: result of `git status --porcelain` — `some` trimmed
  stdout on success, `none` on failure.
* `writeOk`: whether `writeCachedHash` succeeds when attempted. -/
structure GitWorld where
  revParse : Option String
  cachedHash : Option String
  statusPorcelain : Option String
  writeOk : Bool

/-- `GitCache.hasGitChanges` (git-cache.js lines 66-78): a failed status
query conservatively reports changes; otherwise changes exist iff the
porcelain output is nonempty. -/
def hasGitChanges (g : GitWorld) : Bool :=
  match g.statusPorcelain with
  | none => true
  | some out => out.length > 0

/-- `GitCache.shouldSkipExecution` (git-cache.js lines 138-171): skip only
when the current hash resolves, a cached hash exists (JS truthiness: an
empty cached string also counts as missing), the two are equal, and the
tree is clean. -/
def shouldSkipExecution (g : GitWorld) : Bool :=
  match g.revParse with
  | none => false
  | some currentHash =>
    if currentHash = "" then false
    else match g.cachedHash with
      | none => false
      | some cachedHash =>
        if cachedHash = "" then false
        else if currentHash ≠ cachedHash then false
        else if hasGitChanges g then false
        else true

/-- `GitCache.updateCache` (git-cache.js lines 177-182) followed by
`writeCachedHash`: the resulting on-disk cache content.  Nothing is
written when the current hash does not resolve (or is empty, by JS
truthiness) or when the write fails. -/
def updateCacheDisk (g : GitWorld) : Option String :=
  match g.revParse with
  | none => g.cachedHash
  | some h => if h = "" then g.cachedHash else if g.writeOk then some h else g.cachedHash

/-! ## Health Check Poller (`src/lib/health-check.js`) -/

/-- Outcome of one `waitForUrl` call: the returned boolean, the number of
HTTP probes performed, and the number of inter-attempt waits slept. -/
structure WaitOut where
  result : Bool
  probes : Nat
  waits : Nat
  deriving Repr, DecidableEq

/-- The attempt loop of `HealthCheck.waitForUrl` (health-check.js lines
11-35), from attempt number `attempt` (1-based) up to `maxAttempts`.
`probe i = true` abstracts the i-th HTTP GET reporting exactly status 200;
any error, timeout or other status is `false`.  A wait is slept only after
a failed attempt that is not the last one. -/
def waitLoop (probe : Nat → Bool) (maxAttempts attempt : Nat) : WaitOut :=
  if attempt > maxAttempts then ⟨false, 0, 0⟩
  else if probe attempt then ⟨true, 1, 0⟩
  else if attempt < maxAttempts then
    let rest := waitLoop probe maxAttempts (attempt + 1)
    ⟨rest.result, rest.probes + 1, rest.waits + 1⟩
  else ⟨false, 1, 0⟩
termination_by maxAttempts + 1 - attempt

/-- `HealthCheck.waitForUrl` (health-check.js lines 9-40): the loop starts
at attempt 1 and returns false once attempts are exhausted. -/
def waitForUrl (probe : Nat → Bool) (maxAttempts : Nat) : WaitOut :=
  waitLoop probe maxAttempts 1

/-- The argument vector of the curl child process one probe spawns
(health-check.js line 14): silent, body discarded, write out the HTTP
status code, then the URL.  No timeout option of any kind is passed, so a
probe is bounded only by curl's own defaults, not by a fixed per-request
timeout configured by this code. -/
def curlArgs (url : String) : List String :=
  ["-s", "-o", "/dev/null", "-w", "%\x7bhttp_code\x7d", url]

/-! ## Task specifications (`src/lib/orchestrator.js` lines 54-69)

The fields destructured from `commandConfig` at the top of
`executeCommand`.  The `log`/`logFile` and `env` fields only influence the
log path and child environment inside `processManager.runCommand`, which
this model abstracts as an oracle, so they are not carried. -/

/-- The `health_check` descriptor `{url, max_attempts, interval}`. -/
structure HealthCheckSpec where
  url : String
  max_attempts : Option Nat
  interval : Option Nat

/-- One task specification (a `commandConfig` object).  Defaults applied by
the destructuring (`dependencies = []`, `background = false`,
`status = 'enabled'`, `attempts = 1`, `process_tracking = false`) are the
caller's responsibility when building a value. -/
inductive CommandConfig : Type where
  | mk (command : String) (dependencies : List CommandConfig) (background : Bool)
      (status : String) (attempts : Nat) (retry_command : Option String)
      (should_retry : Option (String → Bool)) ( process_tracking : Bool)
      (health_check : Option HealthCheckSpec) (kill_command : Option String)
      (wait : Option Nat) : CommandConfig

def CommandConfig.command : CommandConfig → String
  | .mk c _ _ _ _ _ _ _ _ _ _ => c

def CommandConfig.dependencies : CommandConfig → List CommandConfig
  | .mk _ d _ _ _ _ _ _ _ _ _ => d

def CommandConfig.background : CommandConfig → Bool
  | .mk _ _ b _ _ _ _ _ _ _ _ => b

def CommandConfig.status : CommandConfig → String
  | .mk _ _ _ s _ _ _ _ _ _ _ => s

def CommandConfig.attempts : CommandConfig → Nat
  | .mk _ _ _ _ a _ _ _ _ _ _ => a

def CommandConfig.retry_command : CommandConfig → Option String
  | .mk _ _ _ _ _ r _ _ _ _ _ => r

def CommandConfig.should_retry : CommandConfig → Option (String → Bool)
  | .mk _ _ _ _ _ _ p _ _ _ _ => p

def CommandConfig.health_check : CommandConfig → Option HealthCheckSpec
  | .mk _ _ _ _ _ _ _ _ h _ _ => h

def CommandConfig.kill_command : CommandConfig → Option String
  | .mk _ _ _ _ _ _ _ _ _ k _ => k

/-- A `BackgroundProcessRecord` held in
`processManager.backgroundProcessesDetails`: records pushed by
`Orchestrator.executeCommand`'s self health pre-check carry no pgid and
`startedByScript = false` (orchestrator.js lines 99-105); records pushed by
a successful background spawn carry the process-group id and
`startedByScript = true` (index.js lines 176-183). -/
structure BgRecord where
  command : String
  pgid : Option Nat
  url : Option String
  startedByScript : Bool
  kill_command : Option String

/-- `commandTimings.set` on the association-list model of a JS `Map`:
overwrite in place when the key exists, append otherwise. -/
def setTiming : List (String × Nat) → String → Nat → List (String × Nat)
  | [], k, v => [(k, v)]
  | (k', v') :: rest, k, v =>
    if k' = k then (k, v) :: rest else (k', v') :: setTiming rest k v

/-- `commandTimings.get`. -/
def lookupTiming : List (String × Nat) → String → Option Nat
  | [], _ => none
  | (k', v') :: rest, k => if k' = k then some v' else lookupTiming rest k

/-- The orchestrator's mutable bookkeeping (`failedCommands`,
`skippedCommands`, `commandTimings`, the process manager's background
registry) plus ghost trace fields for the proofs: `invoked` records every
entry into `executeCommand` (by task name, in order), `ran` records every
command string actually handed to `processManager.runCommand` together
with its attempt number, and `pollCount` numbers the `waitForUrl` calls so
that each call reads a fresh slice of the probe oracle. -/
structure OrchState where
  failedCommands : List String
  skippedCommands : List String
  timings : List (String × Nat)
  registry : List BgRecord
  invoked : List String
  ran : List (String × Nat)
  pollCount : Nat

/-- The empty starting state of a run. -/
def OrchState.init : OrchState := ⟨[], [], [], [], [], [], 0⟩

/-- Oracle for the outside world as seen by the orchestrator:
`runCmd cmd attempt` is the `{success, output}` answer of
`processManager.runCommand` for the given command string on the given
attempt of its retry loop; `curl n i` is the outcome of the i-th HTTP
probe of the n-th `waitForUrl` call of the run; `elapsed name` is the
wall-clock duration `Date.now() - startTime` measured for the task. -/
structure World where
  runCmd : String → Nat → Bool × String
  curl : Nat → Nat → Bool
  elapsed : String → Nat

/-- The command string used on a given attempt (orchestrator.js line 163):
attempt 1 runs `command`, later attempts run `retry_command || command`. -/
def cmdFor (command : String) (retry_command : Option String) (attempt : Nat) : String :=
  if attempt = 1 then command else jsOrStr retry_command command

/-- Outcome of the retry loop (orchestrator.js lines 152-192): the final
`result`, the final `commandFailed` flag, and the trace of commands handed
to the process manager. -/
structure RetryOut where
  result : Bool
  commandFailed : Bool
  ran : List (String × Nat)

/-- The retry loop of `executeCommand` (orchestrator.js lines 156-192)
from attempt number `attempt` (1-based) to `attempts`.  On success the
loop breaks with `commandFailed = false`; on failure with attempts
remaining it breaks early iff `should_retry` is present and rejects the
captured output; exhausting attempts leaves `commandFailed = true`.  When
`attempts = 0` the loop body never runs and both flags keep their
initial values (`result = false`, `commandFailed = false`). -/
def retryFrom (w : World) (command : String) (retry_command : Option String)
    (should_retry : Option (String → Bool)) (attempts attempt : Nat) : RetryOut :=
  if attempt > attempts then ⟨false, false, []⟩
  else
    let cmd := cmdFor command retry_command attempt
    let res := w.runCmd cmd attempt
    if res.1 then ⟨true, false, [(cmd, attempt)]⟩
    else if attempt < attempts then
      match should_retry with
      | some p =>
        if p res.2 = false then ⟨false, true, [(cmd, attempt)]⟩
        else
          let rest := retryFrom w command retry_command should_retry attempts (attempt + 1)
          ⟨rest.result, rest.commandFailed, (cmd, attempt) :: rest.ran⟩
      | none =>
          let rest := retryFrom w command retry_command should_retry attempts (attempt + 1)
          ⟨rest.result, rest.commandFailed, (cmd, attempt) :: rest.ran⟩
    else ⟨false, true, [(cmd, attempt)]⟩
termination_by attempts + 1 - attempt

/-- The truthy health-check URL of a spec (`health_check?.url` followed by
`if (checkUrl)`). -/
def checkUrlOf (health_check : Option HealthCheckSpec) : Option String :=
  match health_check with
  | some hc => if hc.url = "" then none else some hc.url
  | none => none

mutual

/-- `Orchestrator.executeCommand` (orchestrator.js lines 54-211) as a
state transformer: returns the boolean result and the updated
orchestrator state.  `visited` is the path-local visited set (a JS `Set`
shared down one recursion path; modelled functionally, since every exit
path of the source removes what it added).  The timed `dependency.wait`
pause (lines 139-147) has no effect on any modelled state and is omitted;
`processManager.cleanupCommand` on a failed background task (lines
198-205) is modelled by its final effect on the registry. -/
def executeCommand (w : World) (cfg : CommandConfig) (visited : List String)
    (st : OrchState) : Bool × OrchState :=
  match cfg with
  | .mk command dependencies background status attempts retry_command should_retry
      _process_tracking health_check kill_command _wait =>
    let st0 : OrchState := { st with invoked := st.invoked ++ [command] }
    if command ∈ visited then
      (false, { st0 with failedCommands := st0.failedCommands ++ [command],
                         timings := setTiming st0.timings command (w.elapsed command) })
    else if status = "disabled" then
      (true, { st0 with skippedCommands := st0.skippedCommands ++ [command],
                        timings := setTiming st0.timings command (w.elapsed command) })
    else
      let checkUrl := checkUrlOf health_check
      let preAvail := match checkUrl with
        | some _ => (waitForUrl (w.curl st0.pollCount) 1).result
        | none => false
      let st1 : OrchState := match checkUrl with
        | some _ => { st0 with pollCount := st0.pollCount + 1 }
        | none => st0
      match checkUrl, preAvail with
      | some u, true =>
        (true, { st1 with
          registry := st1.registry ++ [⟨command, none, some u, false, kill_command⟩],
          timings := setTiming st1.timings command (w.elapsed command) })
      | _, _ =>
        match execDeps w dependencies command (visited ++ [command]) st1 with
        | (false, st2) => (false, st2)
        | (true, st2) =>
          let r := retryFrom w command retry_command should_retry attempts 1
          let st3 : OrchState := { st2 with ran := st2.ran ++ r.ran }
          let st4 : OrchState :=
            if r.commandFailed then
              let stf := { st3 with failedCommands := st3.failedCommands ++ [command] }
              if background then
                { stf with registry := stf.registry.filter (fun b => b.command ≠ command) }
              else stf
            else if r.result then
              { st3 with failedCommands := st3.failedCommands.filter (fun c => c ≠ command) }
            else st3
          (r.result, { st4 with timings := setTiming st4.timings command (w.elapsed command) })
termination_by sizeOf cfg

/-- The dependency loop of `executeCommand` (orchestrator.js lines
113-149): run each dependency sequentially with the shared visited path;
on a dependency failure, or on its declared health check not becoming
available (bounded by `max_attempts || 20` polls), record the parent as
skipped and abort with `false`. -/
def execDeps (w : World) (deps : List CommandConfig) (parent : String)
    (visited : List String) (st : OrchState) : Bool × OrchState :=
  match deps with
  | [] => (true, st)
  | dep :: rest =>
    match executeCommand w dep visited st with
    | (false, st') =>
      (false, { st' with skippedCommands := st'.skippedCommands ++ [parent],
                         timings := setTiming st'.timings parent (w.elapsed parent) })
    | (true, st') =>
      match checkUrlOf dep.health_check with
      | some _ =>
        let maxA := jsOrPosNat (match dep.health_check with
          | some hc => hc.max_attempts
          | none => none) 20
        let avail := (waitForUrl (w.curl st'.pollCount) maxA).result
        let st'' : OrchState := { st' with pollCount := st'.pollCount + 1 }
        if avail then execDeps w rest parent visited st''
        else
          (false, { st'' with skippedCommands := st''.skippedCommands ++ [parent],
                              timings := setTiming st''.timings parent (w.elapsed parent) })
      | none => execDeps w rest parent visited st'
termination_by sizeOf deps

end

/-! ## Phase driver and `Orchestrator.run` (orchestrator.js lines 241-410) -/

/-- A `PhaseSpec`: `{name, optional, parallel}`.  `optional` is the result
of the strict comparison `phase.optional === true`. -/
structure Phase where
  name : String
  optional : Bool
  parallel : List CommandConfig

def Phase.commands (p : Phase) : List String :=
  p.parallel.map CommandConfig.command

/-- An `ExecutionPlan`: either the legacy flat array of task specs or the
`{phases: [...]}` form (orchestrator.js lines 255 and 275). -/
inductive OrchConfig : Type where
  | legacy (cmds : List CommandConfig)
  | phased (phases : List Phase)

/-- Accumulator of the phase loop: `hasFailures`, `phaseFailed`,
`startPhaseFound` (orchestrator.js lines 250-252) plus the orchestrator
state. -/
structure PhaseCtx where
  hasFailures : Bool
  phaseFailed : Bool
  startPhaseFound : Bool
  st : OrchState

def PhaseCtx.init : PhaseCtx := ⟨false, false, false, OrchState.init⟩

/-- Marking every command of a phase as skipped with a zero timing
(orchestrator.js lines 289-292, 301-304 and 310-313). -/
def skipPhaseTasks (p : Phase) (st : OrchState) : OrchState :=
  p.parallel.foldl
    (fun s c =>
      { s with skippedCommands := s.skippedCommands ++ [c.command],
               timings := setTiming s.timings c.command 0 })
    st

/-- Sequential execution of a list of top-level task specs, stopping at
the first failure (orchestrator.js lines 259-267 and 322-330); each call
gets a fresh visited set.  Returns whether any result was `false`. -/
def runPhaseSeq (w : World) : List CommandConfig → OrchState → Bool × OrchState
  | [], st => (false, st)
  | c :: rest, st =>
    match executeCommand w c [] st with
    | (false, st') => (true, st')
    | (true, st') => runPhaseSeq w rest st'

/-- Parallel execution of a list of top-level task specs
(orchestrator.js lines 269-273 and 332-337).  The JS engine launches all
promises and awaits them all; every task runs to completion regardless of
the others, which this model renders as left-to-right sequencing of the
state effects.  Returns whether any result was `false`. -/
def runPhasePar (w : World) : List CommandConfig → OrchState → Bool × OrchState
  | [], st => (false, st)
  | c :: rest, st =>
    let res := executeCommand w c [] st
    let restRes := runPhasePar w rest res.2
    (!res.1 || restRes.1, restRes.2)

/-- The body of one iteration of the phase loop after the start-phase
resume check: the optional-phase opt-in check (orchestrator.js lines
297-306), the failed-phase skip (lines 308-315), and the actual phase
execution with failure accounting (lines 317-347). -/
def processPhaseBody (w : World) (allow : Option (List String)) (sequential : Bool)
    (ctx : PhaseCtx) (p : Phase) : PhaseCtx :=
  if p.optional && allow.isSome && !((allow.getD []).contains p.name) then
    { ctx with st := skipPhaseTasks p ctx.st }
  else if ctx.phaseFailed then
    { ctx with st := skipPhaseTasks p ctx.st }
  else
    let res := if sequential then runPhaseSeq w p.parallel ctx.st
               else runPhasePar w p.parallel ctx.st
    if res.1 then
      { ctx with hasFailures := true, phaseFailed := true, st := res.2 }
    else
      { ctx with st := res.2 }

/-- One iteration of the phase loop (orchestrator.js lines 281-348),
including the start-phase resume check of lines 283-295 (phases before an
unmatched start phase are wholly marked skipped with zero duration). -/
def processPhase (w : World) (startPhase : Option String) (allow : Option (List String))
    (sequential : Bool) (ctx : PhaseCtx) (p : Phase) : PhaseCtx :=
  if jsTruthyStr startPhase && !ctx.startPhaseFound then
    if startPhase = some p.name then
      processPhaseBody w allow sequential { ctx with startPhaseFound := true } p
    else
      { ctx with st := skipPhaseTasks p ctx.st }
  else
    processPhaseBody w allow sequential ctx p

/-- The whole phase loop. -/
def processPhases (w : World) (startPhase : Option String) (allow : Option (List String))
    (sequential : Bool) : PhaseCtx → List Phase → PhaseCtx
  | ctx, [] => ctx
  | ctx, p :: ps =>
    processPhases w startPhase allow sequential
      (processPhase w startPhase allow sequential ctx p) ps

/-- Outcome of `Orchestrator.run`: the process exit code, whether a full
`processManager.cleanup()` was performed before exiting, whether
`gitCache.updateCache()` was invoked, the resulting on-disk commit cache,
whether any top-level execution result was `false`, and the final
orchestrator state. -/
structure RunOutcome where
  exitCode : Nat
  cleaned : Bool
  updateCacheCalled : Bool
  cacheAfter : Option String
  anyResultFalse : Bool
  st : OrchState

/-- The tail of `Orchestrator.run` on the path that passes both phase
validations (orchestrator.js lines 368-397): fold the recorded failures
and skips into the verdict, clean up, update the git cache only on full
success, and exit 1 on failure, 0 on success. -/
def finalizeRun (g : GitWorld) (anyFalse : Bool) (st : OrchState) : RunOutcome :=
  let hasFailures := anyFalse || !st.failedCommands.isEmpty || !st.skippedCommands.isEmpty
  if hasFailures then ⟨1, true, false, g.cachedHash, anyFalse, st⟩
  else ⟨0, true, true, updateCacheDisk g, anyFalse, st⟩

/-- `Orchestrator.run` (orchestrator.js lines 241-410).  Early exits:

* a git-cache-triggered skip exits 0 immediately, with no cleanup
  (lines 244-248);
* an unmatched truthy start phase exits 1 without cleanup when the config
  has phases (lines 352-356); with a legacy array config the same check
  throws (`this.config.phases` is undefined), landing in the catch block
  which cleans up and exits 1 (lines 398-409);
* a supplied `--phases` list exits 1 without cleanup when it names an
  unknown phase (lines 359-366); with a legacy config the check throws
  and the catch block cleans up and exits 1.

Otherwise the run finalizes through `finalizeRun`. -/
def orchestratorRun (w : World) (g : GitWorld) (cfg : OrchConfig)
    (startPhase : Option String) (allow : Option (List String))
    (sequential : Bool) : RunOutcome :=
  if shouldSkipExecution g then
    ⟨0, false, false, g.cachedHash, false, OrchState.init⟩
  else
    let executed :=
      match cfg with
      | .legacy cmds =>
        let res := if sequential then runPhaseSeq w cmds OrchState.init
                   else runPhasePar w cmds OrchState.init
        (res.1, false, res.2)
      | .phased ps =>
        let ctx := processPhases w startPhase allow sequential PhaseCtx.init ps
        (ctx.hasFailures, ctx.startPhaseFound, ctx.st)
    let anyFalse := executed.1
    let found := executed.2.1
    let st := executed.2.2
    if jsTruthyStr startPhase && !found then
      match cfg with
      | .legacy _ => ⟨1, true, false, g.cachedHash, anyFalse, st⟩
      | .phased _ => ⟨1, false, false, g.cachedHash, anyFalse, st⟩
    else
      match allow, cfg with
      | some _, .legacy _ => ⟨1, true, false, g.cachedHash, anyFalse, st⟩
      | some l, .phased ps =>
        if !(l.filter (fun x => !((ps.map Phase.name).contains x))).isEmpty then
          ⟨1, false, false, g.cachedHash, anyFalse, st⟩
        else
          finalizeRun g anyFalse st
      | none, _ => finalizeRun g anyFalse st

/-- The classification a command receives in `summarizeResults`
(orchestrator.js lines 217-232): failed beats skipped beats success. -/
inductive TaskGlyph : Type where
  | success
  | failed
  | skipped
  deriving Repr, DecidableEq

/-- `summarizeResults`' per-command glyph. -/
def summaryStatus (st : OrchState) (command : String) : TaskGlyph :=
  if command ∈ st.failedCommands then .failed
  else if command ∈ st.skippedCommands then .skipped
  else .success

/-- The start-phase validation of orchestrator.js lines 352-356 passes:
either no truthy start phase was supplied, or the config has phases and
the phase loop found the start phase. -/
def startPhaseOk (w : World) (cfg : OrchConfig) (startPhase : Option String)
    (allow : Option (List String)) (sequential : Bool) : Prop :=
  jsTruthyStr startPhase = true →
    match cfg with
    | .legacy _ => False
    | .phased ps =>
      (processPhases w startPhase allow sequential PhaseCtx.init ps).startPhaseFound = true

/-- The optional-phase allow-list validation of orchestrator.js lines
359-366 passes: either no list was supplied, or the config has phases and
every supplied name matches a phase. -/
def allowValid (cfg : OrchConfig) (allow : Option (List String)) : Prop :=
  match allow, cfg with
  | none, _ => True
  | some _, .legacy _ => False
  | some l, .phased ps => l.filter (fun x => !((ps.map Phase.name).contains x)) = []

/-- All commands of a list of phases, in order. -/
def phasesCommands (ps : List Phase) : List String :=
  ps.foldr (fun p acc => p.commands ++ acc) []

/-! ## Process Manager cleanup (`src/lib/index.js` lines 344-534) -/

/-- The externally visible steps `ProcessManager.cleanupProcess` can take,
in the order the code performs them. -/
inductive CleanupAction : Type where
  | runKillTask (cmd : String)
  | probe (pgid : Option Nat)
  | taskkillTree (pgid : Option Nat)
  | sigterm (pgid : Option Nat)
  | termPoll (pgid : Option Nat)
  | httpProbe (url : String)
  | portScan (port : String)
  | killPid (pid : Nat)
  | sigkillGroup (pgid : Option Nat)
  deriving Repr, DecidableEq

/-- Oracle for the OS interactions of one `cleanupProcess` call:
whether the custom kill task reports success, whether the liveness probe
`process.kill(pgid, 0)` succeeds, the platform, whether Windows `taskkill`
spawns without throwing, the port parsed from the record's URL (`none`
when the `URL` constructor throws), whether the URL still answers 200
after termination, and the pids discovered listening on the port. -/
structure CleanupWorld where
  isWindows : Bool
  killTaskOk : String → Bool
  alive : Option Nat → Bool
  taskkillOk : Bool
  urlParsePort : String → Option String
  httpStill200 : String → Bool
  pidsOnPort : String → List Nat

/-- `ProcessManager.cleanupProcess` (index.js lines 344-534) as the list
of actions it performs.  A record not started by this script is skipped
outright.  A successful custom kill command ends the sequence; an initial
liveness probe reporting "no such process" ends it too ("already
terminated"); on Windows a successful `taskkill` ends it after the probe.
Otherwise the group is signaled (SIGTERM plus the bounded 100ms/5s
disappearance poll, whose timeout is caught and ignored), the record's
URL — when present, parseable and still answering 200 — triggers
port-to-pid discovery and a forceful kill of each discovered pid, and one
final unconditional forceful kill of the group closes the sequence. -/
def cleanupProcess (w : CleanupWorld) (r : BgRecord) : List CleanupAction :=
  if !r.startedByScript then []
  else
    let killPhase : List CleanupAction × Bool :=
      match r.kill_command with
      | some kc => if kc = "" then ([], false) else ([.runKillTask kc], w.killTaskOk kc)
      | none => ([], false)
    if killPhase.2 then killPhase.1
    else
      let termPart : List CleanupAction × Bool :=
        if !(w.alive r.pgid) then ([.probe r.pgid], true)
        else if w.isWindows then
          if w.taskkillOk then ([.probe r.pgid, .taskkillTree r.pgid], true)
          else [.probe r.pgid, .taskkillTree r.pgid, .sigterm r.pgid, .termPoll r.pgid] |>
            (fun l => (l, false))
        else ([.probe r.pgid, .sigterm r.pgid, .termPoll r.pgid], false)
      if termPart.2 then killPhase.1 ++ termPart.1
      else
        let urlPart : List CleanupAction :=
          match r.url with
          | some u =>
            if u = "" then []
            else
              match w.urlParsePort u with
              | none => []
              | some port =>
                if w.httpStill200 u then
                  [.httpProbe u, .portScan port] ++ (w.pidsOnPort port).map .killPid
                else [.httpProbe u]
          | none => []
        killPhase.1 ++ termPart.1 ++ urlPart ++ [.sigkillGroup r.pgid]

@[simp] theorem WaitOut.result_mk (r : Bool) (p w : Nat) :
    (⟨r, p, w⟩ : WaitOut).result = r := rfl

@[simp] theorem WaitOut.probes_mk (r : Bool) (p w : Nat) :
    (⟨r, p, w⟩ : WaitOut).probes = p := rfl

@[simp] theorem WaitOut.waits_mk (r : Bool) (p w : Nat) :
    (⟨r, p, w⟩ : WaitOut).waits = w := rfl

theorem waitLoop_hit {probe : Nat → Bool} {maxAttempts attempt : Nat}
    (h : attempt ≤ maxAttempts) (hp : probe attempt = true) :
    waitLoop probe maxAttempts attempt = ⟨true, 1, 0⟩ := by
  unfold waitLoop
  simp [Nat.not_lt.mpr h, hp]

theorem waitLoop_miss_cont {probe : Nat → Bool} {maxAttempts attempt : Nat}
    (hp : probe attempt = false) (h : attempt < maxAttempts) :
    waitLoop probe maxAttempts attempt =
      ⟨(waitLoop probe maxAttempts (attempt + 1)).result,
       (waitLoop probe maxAttempts (attempt + 1)).probes + 1,
       (waitLoop probe maxAttempts (attempt + 1)).waits + 1⟩ := by
  conv_lhs => unfold waitLoop
  simp [Nat.not_lt.mpr (Nat.le_of_lt h), hp, h]

theorem waitLoop_miss_last {probe : Nat → Bool} {maxAttempts : Nat}
    (hp : probe maxAttempts = false) :
    waitLoop probe maxAttempts maxAttempts = ⟨false, 1, 0⟩ := by
  unfold waitLoop
  simp [hp]

theorem waitLoop_spec (probe : Nat → Bool) (maxAttempts : Nat) :
    ∀ attempt, 1 ≤ attempt → attempt ≤ maxAttempts →
      1 ≤ (waitLoop probe maxAttempts attempt).probes ∧
      (waitLoop probe maxAttempts attempt).probes ≤ maxAttempts + 1 - attempt ∧
      ((waitLoop probe maxAttempts attempt).result = true ↔
        ∃ i, attempt ≤ i ∧ i < attempt + (waitLoop probe maxAttempts attempt).probes ∧
          probe i = true) ∧
      (waitLoop probe maxAttempts attempt).waits =
        (waitLoop probe maxAttempts attempt).probes - 1 ∧
      ((waitLoop probe maxAttempts attempt).result = false →
        (waitLoop probe maxAttempts attempt).probes = maxAttempts + 1 - attempt) := by
  intro attempt
  induction attempt using waitLoop.induct probe maxAttempts with
  | case1 a h => intro _ hle; omega
  | case2 a h hp =>
      intro h1 hle
      rw [waitLoop_hit hle hp]
      refine ⟨le_refl 1, ?_, ?_, rfl, ?_⟩
      · show (1 : Nat) ≤ maxAttempts + 1 - a
        omega
      · show true = true ↔ ∃ i, a ≤ i ∧ i < a + 1 ∧ probe i = true
        constructor
        · intro _; exact ⟨a, le_refl a, by omega, hp⟩
        · intro _; rfl
      · show true = false → (1 : Nat) = maxAttempts + 1 - a
        intro hcontra; cases hcontra
  | case3 a h hp hlt ih =>
      intro h1 hle
      have hp' : probe a = false := by simpa using hp
      obtain ⟨ih1, ih2, ih3, ih4, ih5⟩ := ih (by omega) (by omega)
      rw [waitLoop_miss_cont hp' hlt]
      refine ⟨?_, ?_, ?_, ?_, ?_⟩
      · show 1 ≤ (waitLoop probe maxAttempts (a + 1)).probes + 1
        clear ih3
        omega
      · show (waitLoop probe maxAttempts (a + 1)).probes + 1 ≤ maxAttempts + 1 - a
        clear ih3
        omega
      · show (waitLoop probe maxAttempts (a + 1)).result = true ↔
          ∃ i, a ≤ i ∧ i < a + ((waitLoop probe maxAttempts (a + 1)).probes + 1) ∧
            probe i = true
        rw [ih3]
        constructor
        · rintro ⟨i, hi1, hi2, hi3⟩
          exact ⟨i, by omega, by omega, hi3⟩
        · rintro ⟨i, hi1, hi2, hi3⟩
          refine ⟨i, ?_, by omega, hi3⟩
          rcases Nat.eq_or_lt_of_le hi1 with heq | hlt2
          · exfalso; rw [← heq] at hi3; rw [hi3] at hp'; exact absurd hp' (by simp)
          · omega
      · show (waitLoop probe maxAttempts (a + 1)).waits + 1 =
          (waitLoop probe maxAttempts (a + 1)).probes + 1 - 1
        clear ih3
        omega
      · show (waitLoop probe maxAttempts (a + 1)).result = false →
          (waitLoop probe maxAttempts (a + 1)).probes + 1 = maxAttempts + 1 - a
        intro hres
        have h5 := ih5 hres
        clear ih3
        omega
  | case4 a h hp hlt =>
      intro h1 hle
      have hp' : probe a = false := by simpa using hp
      have ha : a = maxAttempts := by omega
      subst ha
      rw [waitLoop_miss_last hp']
      refine ⟨le_refl 1, ?_, ?_, rfl, ?_⟩
      · show (1 : Nat) ≤ a + 1 - a
        omega
      · show false = true ↔ ∃ i, a ≤ i ∧ i < a + 1 ∧ probe i = true
        constructor
        · intro hcontra; cases hcontra
        · rintro ⟨i, hi1, hi2, hi3⟩
          have hia : i = a := by omega
          rw [hia] at hi3; rw [hi3] at hp'; exact absurd hp' (by simp)
      · show false = false → (1 : Nat) = a + 1 - a
        intro _; omega

/-! ## Claim theorems -/

theorem string_length_zero_iff (s : String) : s.length = 0 ↔ s = "" := by
  constructor
  · intro h
    cases s with
    | mk data =>
      simp [String.length] at h
      simp [h]
  · intro h
    subst h
    rfl

/-- C4: `shouldSkipExecution` returns true iff all four conditions hold —
the current commit hash resolves, a previously cached hash exists on
disk, the two hashes are equal, and `git status --porcelain` reports an
empty (clean) tree; and any failure to query git state (hash resolution
failure or status failure) makes it return false so the run proceeds. -/
theorem C4_shouldSkipExecution_iff (g : GitWorld) :
    (shouldSkipExecution g = true ↔
      ∃ h, h ≠ "" ∧ g.revParse = some h ∧ g.cachedHash = some h ∧
        g.statusPorcelain = some "") ∧
    (g.revParse = none → shouldSkipExecution g = false) ∧
    (g.statusPorcelain = none → shouldSkipExecution g = false) := by
  obtain ⟨rp, ch, stp, wk⟩ := g
  cases rp <;> cases ch <;> cases stp <;>
    refine ⟨?_, ?_, ?_⟩ <;>
      first
        | (simp [shouldSkipExecution, hasGitChanges]; done)
        | (simp only [shouldSkipExecution, hasGitChanges]
           split_ifs <;> simp_all [string_length_zero_iff]
           done)
        | (simp [shouldSkipExecution, hasGitChanges, string_length_zero_iff]
           constructor
           · rintro ⟨h1, h2, h3, h4⟩
             exact ⟨_, h1, rfl, h3.symm, h4⟩
           · rintro ⟨h, hne, ha, hb, hc⟩
             subst ha
             exact ⟨hne, by rw [hb]; exact hne, hb.symm, hc⟩)

/-- C8 (amended): for every `maxAttempts ≥ 1`, `waitForUrl` performs at
least one and at most `maxAttempts` probes, returns true iff one of the
performed probes answered with status 200 exactly (any connection error,
stall or other status is a failed attempt), sleeps the poll interval
between consecutive attempts but never after the last one performed, and
when every probe fails it performs exactly `maxAttempts` probes and
returns false.  Each probe is a single curl invocation whose argument
vector sets no timeout option, so a probe is not bounded by a fixed
per-request timeout configured by this code (see
`C8_claim_counterexample`). -/
theorem C8_waitForUrl_spec (probe : Nat → Bool) (maxAttempts : Nat)
    (hmax : 1 ≤ maxAttempts) :
    1 ≤ (waitForUrl probe maxAttempts).probes ∧
    (waitForUrl probe maxAttempts).probes ≤ maxAttempts ∧
    ((waitForUrl probe maxAttempts).result = true ↔
      ∃ i, 1 ≤ i ∧ i ≤ (waitForUrl probe maxAttempts).probes ∧ probe i = true) ∧
    (waitForUrl probe maxAttempts).waits = (waitForUrl probe maxAttempts).probes - 1 ∧
    ((∀ i, 1 ≤ i → i ≤ maxAttempts → probe i = false) →
      (waitForUrl probe maxAttempts).result = false ∧
      (waitForUrl probe maxAttempts).probes = maxAttempts) ∧
    (∀ u, "--max-time" ∉ (curlArgs u).dropLast ∧ "-m" ∉ (curlArgs u).dropLast ∧
      "--connect-timeout" ∉ (curlArgs u).dropLast) := by
  obtain ⟨h1, h2, h3, h4, h5⟩ := waitLoop_spec probe maxAttempts 1 (le_refl 1) hmax
  unfold waitForUrl
  refine ⟨h1, by clear h3; omega, ?_, h4, ?_, ?_⟩
  · rw [h3]
    constructor
    · rintro ⟨i, a, b, c⟩; exact ⟨i, a, by clear h3; omega, c⟩
    · rintro ⟨i, a, b, c⟩; exact ⟨i, a, by clear h3; omega, c⟩
  · intro hall
    have hres : (waitLoop probe maxAttempts 1).result = false := by
      cases hb : (waitLoop probe maxAttempts 1).result
      · rfl
      · exfalso
        obtain ⟨i, hi1, hi2, hi3⟩ := h3.mp hb
        have hip : i ≤ maxAttempts := by clear h3; omega
        have hfi := hall i hi1 hip
        rw [hfi] at hi3
        exact absurd hi3 (by simp)
    have h5' := h5 hres
    exact ⟨hres, by clear h3; omega⟩
  · intro u
    refine ⟨?_, ?_, ?_⟩ <;> simp [curlArgs]

/-- C8 counterexample: the curl argument vector one probe spawns, at the
concrete URL the poller is pointed at, contains no timeout option
(`--max-time`, `-m`, `--connect-timeout`), so no fixed per-request
timeout bounds a probe — refuting the claim's "each probe bounded by a
fixed per-request timeout independent of the poll interval". -/
theorem C8_claim_counterexample :
    "--max-time" ∉ curlArgs "http://localhost:3000" ∧
    "-m" ∉ curlArgs "http://localhost:3000" ∧
    "--connect-timeout" ∉ curlArgs "http://localhost:3000" := by
  refine ⟨?_, ?_, ?_⟩ <;> simp [curlArgs]

/-- C8 witness: with an endpoint that answers 200 only on the third
probe and `maxAttempts = 3`, the poll returns true after exactly 3
probes and 2 inter-attempt waits, and the probe invocation sets no
timeout option. -/
theorem C8_waitForUrl_spec_witness :
    1 ≤ 3 ∧
    (1 ≤ (waitForUrl (fun i => i == 3) 3).probes ∧
     (waitForUrl (fun i => i == 3) 3).probes ≤ 3 ∧
     ((waitForUrl (fun i => i == 3) 3).result = true ↔
       ∃ i, 1 ≤ i ∧ i ≤ (waitForUrl (fun i => i == 3) 3).probes ∧ (i == 3) = true) ∧
     (waitForUrl (fun i => i == 3) 3).waits =
       (waitForUrl (fun i => i == 3) 3).probes - 1 ∧
     ((∀ i, 1 ≤ i → i ≤ 3 → (i == 3) = false) →
       (waitForUrl (fun i => i == 3) 3).result = false ∧
       (waitForUrl (fun i => i == 3) 3).probes = 3) ∧
     (∀ u, "--max-time" ∉ (curlArgs u).dropLast ∧ "-m" ∉ (curlArgs u).dropLast ∧
       "--connect-timeout" ∉ (curlArgs u).dropLast)) :=
  ⟨by decide, C8_waitForUrl_spec (fun i => i == 3) 3 (by decide)⟩

/-- C9: a background record whose `startedByScript` flag is false is never
touched by `cleanupProcess`: the call performs no action at all — no kill
command, no signal, no probe. -/
theorem C9_cleanupProcess_not_owned (w : CleanupWorld) (r : BgRecord)
    (h : r.startedByScript = false) : cleanupProcess w r = [] := by
  unfold cleanupProcess
  rw [h]
  simp

/-- C9 witness: a concrete non-owned record (as registered by the
orchestrator's self health pre-check) is cleaned with zero actions. -/
theorem C9_cleanupProcess_not_owned_witness :
    (⟨"storybook", none, some "http://localhost:6006", false,
        some "kill-storybook"⟩ : BgRecord).startedByScript = false ∧
    cleanupProcess
      ⟨false, fun _ => true, fun _ => true, true, fun _ => some "6006",
        fun _ => true, fun _ => [7]⟩
      ⟨"storybook", none, some "http://localhost:6006", false,
        some "kill-storybook"⟩ = [] :=
  ⟨rfl, C9_cleanupProcess_not_owned _ _ rfl⟩

/-- C2: calling `executeCommand` on a task whose name is already in the
visited set recurses no further: it records the task as failed, touches
neither the skipped list nor the run trace (no dependency execution, no
command handed to the process manager), and returns false. -/
theorem C2_executeCommand_cycle (w : World) (cfg : CommandConfig)
    (visited : List String) (st : OrchState) (h : cfg.command ∈ visited) :
    executeCommand w cfg visited st =
      (false,
        { st with
            invoked := st.invoked ++ [cfg.command],
            failedCommands := st.failedCommands ++ [cfg.command],
            timings := setTiming st.timings cfg.command (w.elapsed cfg.command) }) := by
  cases cfg with
  | mk c deps bg s a rc sr pt hc kc wt =>
    simp only [CommandConfig.command] at h ⊢
    unfold executeCommand
    simp [h]

/-- C2 witness: a task named "build" with "build" already on the visited
path fails immediately with only its own cycle record. -/
theorem C2_executeCommand_cycle_witness :
    (CommandConfig.mk "build" [] false "enabled" 1 none none false none none
        none).command ∈ ["dev", "build"] ∧
    executeCommand
      ⟨fun _ _ => (true, ""), fun _ _ => true, fun _ => 7⟩
      (.mk "build" [] false "enabled" 1 none none false none none none)
      ["dev", "build"] OrchState.init =
      (false,
        { OrchState.init with
            invoked := OrchState.init.invoked ++ ["build"],
            failedCommands := OrchState.init.failedCommands ++ ["build"],
            timings := setTiming OrchState.init.timings "build" 7 }) :=
  ⟨by simp [CommandConfig.command], by
    exact C2_executeCommand_cycle _ _ _ _ (by simp [CommandConfig.command])⟩

/-- C10: an enabled task with `attempts = 0`, not on the visited path,
with no health check and no dependencies, makes `executeCommand` return
false while the retry loop body never runs: nothing is handed to the
process manager, the failed and skipped lists are left unchanged, and
`summarizeResults` therefore shows the task as successful even though its
caller observes a failure. -/
theorem C10_zero_attempts_silent_failure (w : World) (cfg : CommandConfig)
    (visited : List String) (st : OrchState)
    (hatt : cfg.attempts = 0) (hstat : cfg.status = "enabled")
    (hdeps : cfg.dependencies = []) (hhc : cfg.health_check = none)
    (hnv : cfg.command ∉ visited)
    (hf : cfg.command ∉ st.failedCommands) (hs : cfg.command ∉ st.skippedCommands) :
    (executeCommand w cfg visited st).1 = false ∧
    (executeCommand w cfg visited st).2.failedCommands = st.failedCommands ∧
    (executeCommand w cfg visited st).2.skippedCommands = st.skippedCommands ∧
    (executeCommand w cfg visited st).2.ran = st.ran ∧
    summaryStatus (executeCommand w cfg visited st).2 cfg.command = .success := by
  cases cfg with
  | mk c deps bg s a rc sr pt hc kc wt =>
    simp only [CommandConfig.command, CommandConfig.attempts, CommandConfig.status,
      CommandConfig.dependencies, CommandConfig.health_check] at *
    subst hatt hstat hdeps hhc
    unfold executeCommand
    rw [if_neg hnv]
    unfold retryFrom
    simp [execDeps, checkUrlOf, summaryStatus, hf, hs]
/-- C3: the commit cache is updated only after a fully successful run —
whenever the outcome records any failed or skipped task, or any top-level
execution result was false, `updateCache` is never invoked and the
on-disk cached hash is unchanged.  This covers every exit path of `run`,
the early exits included. -/
theorem C3_cache_untouched_on_failure (w : World) (g : GitWorld) (cfg : OrchConfig)
    (sp : Option String) (allow : Option (List String)) (seq : Bool) :
    ((orchestratorRun w g cfg sp allow seq).anyResultFalse = true ∨
     (orchestratorRun w g cfg sp allow seq).st.failedCommands ≠ [] ∨
     (orchestratorRun w g cfg sp allow seq).st.skippedCommands ≠ []) →
    (orchestratorRun w g cfg sp allow seq).updateCacheCalled = false ∧
    (orchestratorRun w g cfg sp allow seq).cacheAfter = g.cachedHash := by
  cases cfg with
  | legacy cmds =>
    unfold orchestratorRun
    split
    · intro h
      simp [OrchState.init] at h
    · dsimp only
      generalize (if seq then runPhaseSeq w cmds OrchState.init
        else runPhasePar w cmds OrchState.init) = res
      obtain ⟨anyFalse, stRes⟩ := res
      dsimp only
      split
      · intro _; exact ⟨rfl, rfl⟩
      · cases allow with
        | some l =>
          dsimp only
          intro _; exact ⟨rfl, rfl⟩
        | none =>
          unfold finalizeRun
          dsimp only
          split
          · intro _; exact ⟨rfl, rfl⟩
          · intro h
            rename_i hno
            exfalso
            rcases h with h | h | h <;> simp_all
  | phased ps =>
    unfold orchestratorRun
    split
    · intro h
      simp [OrchState.init] at h
    · dsimp only
      generalize processPhases w sp allow seq PhaseCtx.init ps = ctx
      obtain ⟨hfail, pfail, spfound, stRes⟩ := ctx
      dsimp only
      split
      · intro _; exact ⟨rfl, rfl⟩
      · cases allow with
        | none =>
          unfold finalizeRun
          dsimp only
          split
          · intro _; exact ⟨rfl, rfl⟩
          · intro h
            rename_i hno
            exfalso
            rcases h with h | h | h <;> simp_all
        | some l =>
          dsimp only
          split
          · intro _; exact ⟨rfl, rfl⟩
          · unfold finalizeRun
            dsimp only
            split
            · intro _; exact ⟨rfl, rfl⟩
            · intro h
              rename_i hno
              exfalso
              rcases h with h | h | h <;> simp_all

/-- C3 witness: a run whose single task fails leaves the cached hash
("h0") on disk untouched and never calls `updateCache`. -/
theorem C3_cache_untouched_on_failure_witness :
    ((orchestratorRun ⟨fun _ _ => (false, "err"), fun _ _ => false, fun _ => 5⟩
        ⟨some "h1", some "h0", some "", true⟩
        (.legacy [.mk "a" [] false "enabled" 1 none none false none none none])
        none none false).anyResultFalse = true ∨
     (orchestratorRun ⟨fun _ _ => (false, "err"), fun _ _ => false, fun _ => 5⟩
        ⟨some "h1", some "h0", some "", true⟩
        (.legacy [.mk "a" [] false "enabled" 1 none none false none none none])
        none none false).st.failedCommands ≠ [] ∨
     (orchestratorRun ⟨fun _ _ => (false, "err"), fun _ _ => false, fun _ => 5⟩
        ⟨some "h1", some "h0", some "", true⟩
        (.legacy [.mk "a" [] false "enabled" 1 none none false none none none])
        none none false).st.skippedCommands ≠ []) ∧
    ((orchestratorRun ⟨fun _ _ => (false, "err"), fun _ _ => false, fun _ => 5⟩
        ⟨some "h1", some "h0", some "", true⟩
        (.legacy [.mk "a" [] false "enabled" 1 none none false none none none])
        none none false).updateCacheCalled = false ∧
     (orchestratorRun ⟨fun _ _ => (false, "err"), fun _ _ => false, fun _ => 5⟩
        ⟨some "h1", some "h0", some "", true⟩
        (.legacy [.mk "a" [] false "enabled" 1 none none false none none none])
        none none false).cacheAfter = some "h0") :=
  ⟨Or.inl (by
      simp [orchestratorRun, shouldSkipExecution, hasGitChanges, jsTruthyStr,
        runPhasePar, runPhaseSeq, executeCommand, execDeps, retryFrom, cmdFor,
        checkUrlOf, finalizeRun, OrchState.init, setTiming]),
   by
    simpa using
      C3_cache_untouched_on_failure
        ⟨fun _ _ => (false, "err"), fun _ _ => false, fun _ => 5⟩
        ⟨some "h1", some "h0", some "", true⟩
        (.legacy [.mk "a" [] false "enabled" 1 none none false none none none])
        none none false
        (Or.inl (by
          simp [orchestratorRun, shouldSkipExecution, hasGitChanges, jsTruthyStr,
            runPhasePar, runPhaseSeq, executeCommand, execDeps, retryFrom, cmdFor,
            checkUrlOf, finalizeRun, OrchState.init, setTiming]))⟩

theorem finalizeRun_spec (g : GitWorld) (anyFalse : Bool) (st : OrchState) :
    (finalizeRun g anyFalse st).cleaned = true ∧
    ((finalizeRun g anyFalse st).exitCode = 1 ↔
      (anyFalse = true ∨ st.failedCommands ≠ [] ∨ st.skippedCommands ≠ [])) ∧
    ((finalizeRun g anyFalse st).exitCode = 0 ∨ (finalizeRun g anyFalse st).exitCode = 1) ∧
    (finalizeRun g anyFalse st).anyResultFalse = anyFalse ∧
    (finalizeRun g anyFalse st).st = st := by
  unfold finalizeRun
  cases anyFalse <;> cases hf : st.failedCommands <;> cases hs : st.skippedCommands <;>
    simp_all

/-- C1 (amended): on every run that is not short-circuited by the git
cache and whose start phase and optional-phase allow-list pass
validation, the process exits 1 exactly when some task ended failed or
skipped or some top-level execution result was false, exits 0 otherwise,
and the Process Manager performs a full cleanup before either exit.  (The
three early exits — git-cache skip with code 0, unmatched start phase and
invalid allow-list entry with code 1 — bypass the cleanup and the
recorded-failure accounting; see `C1_claim_counterexample`.) -/
theorem C1_exit_verdict_and_cleanup (w : World) (g : GitWorld) (cfg : OrchConfig)
    (sp : Option String) (allow : Option (List String)) (seq : Bool)
    (hskip : shouldSkipExecution g = false)
    (hsp : startPhaseOk w cfg sp allow seq)
    (hallow : allowValid cfg allow) :
    (orchestratorRun w g cfg sp allow seq).cleaned = true ∧
    ((orchestratorRun w g cfg sp allow seq).exitCode = 1 ↔
      ((orchestratorRun w g cfg sp allow seq).anyResultFalse = true ∨
       (orchestratorRun w g cfg sp allow seq).st.failedCommands ≠ [] ∨
       (orchestratorRun w g cfg sp allow seq).st.skippedCommands ≠ [])) ∧
    ((orchestratorRun w g cfg sp allow seq).exitCode = 0 ∨
     (orchestratorRun w g cfg sp allow seq).exitCode = 1) := by
  cases cfg with
  | legacy cmds =>
    have hspf : jsTruthyStr sp = false := by
      simp only [startPhaseOk] at hsp
      cases hj : jsTruthyStr sp
      · rfl
      · exact (hsp hj).elim
    cases allow with
    | some l => simp [allowValid] at hallow
    | none =>
      unfold orchestratorRun
      split
      · rename_i hcontra
        rw [hskip] at hcontra
        exact absurd hcontra (by simp)
      · dsimp only
        rw [hspf]
        simp only [Bool.false_and, Bool.false_eq_true, if_false]
        obtain ⟨hcl, hiff, hcode, har, hst⟩ :=
          finalizeRun_spec g
            (if seq then runPhaseSeq w cmds OrchState.init
             else runPhasePar w cmds OrchState.init).1
            (if seq then runPhaseSeq w cmds OrchState.init
             else runPhasePar w cmds OrchState.init).2
        refine ⟨hcl, ?_, hcode⟩
        rw [hiff, har, hst]
  | phased ps =>
    simp only [startPhaseOk] at hsp
    unfold orchestratorRun
    split
    · rename_i hcontra
      rw [hskip] at hcontra
      exact absurd hcontra (by simp)
    · dsimp only
      split
      · rename_i hcond
        rw [Bool.and_eq_true] at hcond
        have hfound := hsp hcond.1
        rw [hfound] at hcond
        exact absurd hcond.2 (by simp)
      · cases allow with
        | none =>
          dsimp only
          obtain ⟨hcl, hiff, hcode, har, hst⟩ :=
            finalizeRun_spec g
              (processPhases w sp none seq PhaseCtx.init ps).hasFailures
              (processPhases w sp none seq PhaseCtx.init ps).st
          refine ⟨hcl, ?_, hcode⟩
          rw [hiff, har, hst]
        | some l =>
          dsimp only
          simp only [allowValid] at hallow
          rw [hallow]
          simp only [List.isEmpty_nil, Bool.not_true, Bool.false_eq_true, if_false]
          obtain ⟨hcl, hiff, hcode, har, hst⟩ :=
            finalizeRun_spec g
              (processPhases w sp (some l) seq PhaseCtx.init ps).hasFailures
              (processPhases w sp (some l) seq PhaseCtx.init ps).st
          refine ⟨hcl, ?_, hcode⟩
          rw [hiff, har, hst]

/-- C1 counterexample: a run whose single phase succeeds completely, but
which was invoked with a `--phases` allow-list naming an unknown phase
("nope"), exits with code 1 even though no task failed or was skipped and
every execution result was true — and it does so without performing the
Process Manager cleanup.  This refutes the claim's "exits with code 0
otherwise" and "full cleanup before exit in both outcomes". -/
theorem C1_claim_counterexample :
    (orchestratorRun ⟨fun _ _ => (true, ""), fun _ _ => false, fun _ => 5⟩
        ⟨none, none, none, true⟩
        (.phased [⟨"build", false,
          [.mk "a" [] false "enabled" 1 none none false none none none]⟩])
        none (some ["nope"]) false).exitCode = 1 ∧
    (orchestratorRun ⟨fun _ _ => (true, ""), fun _ _ => false, fun _ => 5⟩
        ⟨none, none, none, true⟩
        (.phased [⟨"build", false,
          [.mk "a" [] false "enabled" 1 none none false none none none]⟩])
        none (some ["nope"]) false).cleaned = false ∧
    (orchestratorRun ⟨fun _ _ => (true, ""), fun _ _ => false, fun _ => 5⟩
        ⟨none, none, none, true⟩
        (.phased [⟨"build", false,
          [.mk "a" [] false "enabled" 1 none none false none none none]⟩])
        none (some ["nope"]) false).anyResultFalse = false ∧
    (orchestratorRun ⟨fun _ _ => (true, ""), fun _ _ => false, fun _ => 5⟩
        ⟨none, none, none, true⟩
        (.phased [⟨"build", false,
          [.mk "a" [] false "enabled" 1 none none false none none none]⟩])
        none (some ["nope"]) false).st.failedCommands = [] ∧
    (orchestratorRun ⟨fun _ _ => (true, ""), fun _ _ => false, fun _ => 5⟩
        ⟨none, none, none, true⟩
        (.phased [⟨"build", false,
          [.mk "a" [] false "enabled" 1 none none false none none none]⟩])
        none (some ["nope"]) false).st.skippedCommands = [] := by
  refine ⟨?_, ?_, ?_, ?_, ?_⟩ <;>
    simp [orchestratorRun, shouldSkipExecution, hasGitChanges, jsTruthyStr,
      processPhases, processPhase, processPhaseBody, skipPhaseTasks,
      runPhasePar, runPhaseSeq, executeCommand, execDeps, retryFrom, cmdFor,
      checkUrlOf, finalizeRun, OrchState.init, PhaseCtx.init, setTiming,
      Phase.commands]

/-- C1 witness: a fully successful legacy run (no start phase, no
allow-list, git cache not skipping) exits through the normal path with
cleanup, and its exit code is 1 exactly when something failed. -/
theorem C1_exit_verdict_and_cleanup_witness :
    shouldSkipExecution ⟨none, none, none, true⟩ = false ∧
    ((orchestratorRun ⟨fun _ _ => (true, ""), fun _ _ => false, fun _ => 5⟩
        ⟨none, none, none, true⟩
        (.legacy [.mk "a" [] false "enabled" 1 none none false none none none])
        none none false).cleaned = true ∧
     ((orchestratorRun ⟨fun _ _ => (true, ""), fun _ _ => false, fun _ => 5⟩
        ⟨none, none, none, true⟩
        (.legacy [.mk "a" [] false "enabled" 1 none none false none none none])
        none none false).exitCode = 1 ↔
       ((orchestratorRun ⟨fun _ _ => (true, ""), fun _ _ => false, fun _ => 5⟩
          ⟨none, none, none, true⟩
          (.legacy [.mk "a" [] false "enabled" 1 none none false none none none])
          none none false).anyResultFalse = true ∨
        (orchestratorRun ⟨fun _ _ => (true, ""), fun _ _ => false, fun _ => 5⟩
          ⟨none, none, none, true⟩
          (.legacy [.mk "a" [] false "enabled" 1 none none false none none none])
          none none false).st.failedCommands ≠ [] ∨
        (orchestratorRun ⟨fun _ _ => (true, ""), fun _ _ => false, fun _ => 5⟩
          ⟨none, none, none, true⟩
          (.legacy [.mk "a" [] false "enabled" 1 none none false none none none])
          none none false).st.skippedCommands ≠ [])) ∧
     ((orchestratorRun ⟨fun _ _ => (true, ""), fun _ _ => false, fun _ => 5⟩
        ⟨none, none, none, true⟩
        (.legacy [.mk "a" [] false "enabled" 1 none none false none none none])
        none none false).exitCode = 0 ∨
      (orchestratorRun ⟨fun _ _ => (true, ""), fun _ _ => false, fun _ => 5⟩
        ⟨none, none, none, true⟩
        (.legacy [.mk "a" [] false "enabled" 1 none none false none none none])
        none none false).exitCode = 1)) :=
  ⟨by decide,
   C1_exit_verdict_and_cleanup
     ⟨fun _ _ => (true, ""), fun _ _ => false, fun _ => 5⟩
     ⟨none, none, none, true⟩
     (.legacy [.mk "a" [] false "enabled" 1 none none false none none none])
     none none false
     (by decide)
     (by intro h; simp [jsTruthyStr] at h)
     (by simp [allowValid])⟩

theorem retryFrom_pred_break (w : World) (command : String) (rc : Option String)
    (p : String → Bool) :
    ∀ (n attempts k i : Nat), k - i = n → 1 ≤ i → i ≤ k → k < attempts →
      (∀ j, i ≤ j → j < k → (w.runCmd (cmdFor command rc j) j).1 = false ∧
        p (w.runCmd (cmdFor command rc j) j).2 = true) →
      (w.runCmd (cmdFor command rc k) k).1 = false →
      p (w.runCmd (cmdFor command rc k) k).2 = false →
      retryFrom w command rc (some p) attempts i =
        ⟨false, true, (List.range' i (k + 1 - i)).map
          (fun j => (cmdFor command rc j, j))⟩ := by
  intro n
  induction n with
  | zero =>
    intro attempts k i h0 h1 hik hk hall hfk hpk
    have hki : i = k := by omega
    subst hki
    unfold retryFrom
    rw [if_neg (by omega)]
    simp only []
    rw [hfk]
    simp only [Bool.false_eq_true, if_false]
    rw [if_pos (by omega : i < attempts)]
    rw [hpk]
    simp [Nat.add_sub_cancel_left, List.range'_one]
  | succ n ih =>
    intro attempts k i h0 h1 hik hk hall hfk hpk
    have hik' : i < k := by omega
    obtain ⟨hfi, hpi⟩ := hall i (le_refl i) hik'
    unfold retryFrom
    rw [if_neg (by omega)]
    simp only []
    rw [hfi]
    simp only [Bool.false_eq_true, if_false]
    rw [if_pos (by omega : i < attempts)]
    rw [hpi]
    simp only [Bool.true_eq_false, if_false]
    rw [ih attempts k (i + 1) (by omega) (by omega) (by omega) hk
      (fun j hj1 hj2 => hall j (by omega) hj2) hfk hpk]
    have hsplit : k + 1 - i = (k + 1 - (i + 1)) + 1 := by omega
    rw [hsplit, List.range'_succ]
    simp

/-- C7: when a `should_retry` predicate is present and some attempt `k`
fails while more attempts remain (`k < attempts`) and the predicate
rejects that attempt's captured output, no further attempt is performed:
the process manager is handed exactly attempts `1..k`, the task is
recorded as failed, and `executeCommand` returns false.  (Attempts before
`k` are assumed to have failed with the predicate accepting their output,
which is what makes attempt `k` reachable.) -/
theorem C7_should_retry_false_stops (w : World) (cfg : CommandConfig)
    (visited : List String) (st : OrchState) (p : String → Bool) (k : Nat)
    (hsr : cfg.should_retry = some p)
    (hstat : ¬cfg.status = "disabled") (hdeps : cfg.dependencies = [])
    (hhc : cfg.health_check = none) (hnv : cfg.command ∉ visited)
    (hk1 : 1 ≤ k) (hklt : k < cfg.attempts)
    (hall : ∀ j, 1 ≤ j → j < k →
      (w.runCmd (cmdFor cfg.command cfg.retry_command j) j).1 = false ∧
      p (w.runCmd (cmdFor cfg.command cfg.retry_command j) j).2 = true)
    (hfk : (w.runCmd (cmdFor cfg.command cfg.retry_command k) k).1 = false)
    (hpk : p (w.runCmd (cmdFor cfg.command cfg.retry_command k) k).2 = false) :
    (executeCommand w cfg visited st).1 = false ∧
    (executeCommand w cfg visited st).2.failedCommands =
      st.failedCommands ++ [cfg.command] ∧
    (executeCommand w cfg visited st).2.ran =
      st.ran ++ (List.range' 1 k).map
        (fun j => (cmdFor cfg.command cfg.retry_command j, j)) := by
  cases cfg with
  | mk c deps bg s a rc sr pt hc kc wt =>
    simp only [CommandConfig.command, CommandConfig.should_retry, CommandConfig.status,
      CommandConfig.dependencies, CommandConfig.health_check, CommandConfig.attempts,
      CommandConfig.retry_command] at *
    subst hsr hdeps hhc
    unfold executeCommand
    rw [if_neg hnv, if_neg hstat]
    simp only [checkUrlOf]
    rw [retryFrom_pred_break w c rc p (k - 1) a k 1 (by omega) (le_refl 1) hk1 hklt
      hall hfk hpk]
    simp only [execDeps]
    refine ⟨?_, ?_, ?_⟩ <;> cases bg <;> simp [Nat.add_sub_cancel]

/-- C7 witness: `attempts = 3`, the first attempt fails and the predicate
returns false on its output — attempt 2 never occurs (exactly one command
is handed to the process manager) and the task is recorded failed. -/
theorem C7_should_retry_false_stops_witness :
    1 ≤ 1 ∧
    1 < (CommandConfig.mk "build" [] false "enabled" 3 none
      (some (fun _ => false)) false none none none).attempts ∧
    ((executeCommand ⟨fun _ _ => (false, "err"), fun _ _ => false, fun _ => 5⟩
        (.mk "build" [] false "enabled" 3 none (some (fun _ => false)) false none
          none none) [] OrchState.init).1 = false ∧
     (executeCommand ⟨fun _ _ => (false, "err"), fun _ _ => false, fun _ => 5⟩
        (.mk "build" [] false "enabled" 3 none (some (fun _ => false)) false none
          none none) [] OrchState.init).2.failedCommands =
       OrchState.init.failedCommands ++ ["build"] ∧
     (executeCommand ⟨fun _ _ => (false, "err"), fun _ _ => false, fun _ => 5⟩
        (.mk "build" [] false "enabled" 3 none (some (fun _ => false)) false none
          none none) [] OrchState.init).2.ran =
       OrchState.init.ran ++ (List.range' 1 1).map (fun j => (cmdFor "build" none j, j))) :=
  ⟨by decide, by decide,
   C7_should_retry_false_stops
     ⟨fun _ _ => (false, "err"), fun _ _ => false, fun _ => 5⟩
     (.mk "build" [] false "enabled" 3 none (some (fun _ => false)) false none none none)
     [] OrchState.init (fun _ => false) 1
     rfl (by decide) rfl rfl (by simp [CommandConfig.command])
     (by decide) (by decide)
     (by intro j hj1 hj2; omega) rfl rfl⟩

theorem lookupTiming_setTiming (t : List (String × Nat)) (k k' : String) (v : Nat) :
    lookupTiming (setTiming t k v) k' =
      if k = k' then some v else lookupTiming t k' := by
  induction t with
  | nil =>
    simp only [setTiming, lookupTiming]
  | cons hd rest ih =>
    obtain ⟨hk, hv⟩ := hd
    simp only [setTiming]
    by_cases h1 : hk = k
    · subst h1
      simp only [if_pos rfl, lookupTiming]
      by_cases h2 : hk = k'
      · simp [h2]
      · simp [h2]
    · rw [if_neg h1]
      simp only [lookupTiming]
      rw [ih]
      by_cases h2 : hk = k'
      · have hkk : ¬(k = k') := fun he => h1 (h2.trans he.symm)
        simp [h2, hkk]
      · simp [h2]

theorem skipFold_effect :
    ∀ (l : List CommandConfig) (st : OrchState),
      (l.foldl (fun s c =>
          { s with skippedCommands := s.skippedCommands ++ [c.command],
                   timings := setTiming s.timings c.command 0 }) st).failedCommands =
        st.failedCommands ∧
      (l.foldl (fun s c =>
          { s with skippedCommands := s.skippedCommands ++ [c.command],
                   timings := setTiming s.timings c.command 0 }) st).skippedCommands =
        st.skippedCommands ++ l.map CommandConfig.command ∧
      (l.foldl (fun s c =>
          { s with skippedCommands := s.skippedCommands ++ [c.command],
                   timings := setTiming s.timings c.command 0 }) st).invoked = st.invoked ∧
      (l.foldl (fun s c =>
          { s with skippedCommands := s.skippedCommands ++ [c.command],
                   timings := setTiming s.timings c.command 0 }) st).ran = st.ran ∧
      (∀ c, c ∈ l.map CommandConfig.command →
        lookupTiming (l.foldl (fun s c =>
          { s with skippedCommands := s.skippedCommands ++ [c.command],
                   timings := setTiming s.timings c.command 0 }) st).timings c = some 0) ∧
      (∀ c, c ∉ l.map CommandConfig.command →
        lookupTiming (l.foldl (fun s c =>
          { s with skippedCommands := s.skippedCommands ++ [c.command],
                   timings := setTiming s.timings c.command 0 }) st).timings c =
          lookupTiming st.timings c) := by
  intro l
  induction l with
  | nil => intro st; simp
  | cons c0 rest ih =>
    intro st
    simp only [List.foldl_cons, List.map_cons]
    obtain ⟨ih1, ih2, ih3, ih4, ih5, ih6⟩ :=
      ih { st with skippedCommands := st.skippedCommands ++ [c0.command],
                   timings := setTiming st.timings c0.command 0 }
    refine ⟨ih1, ?_, ih3, ih4, ?_, ?_⟩
    · rw [ih2]
      simp
    · intro c hc
      rcases List.mem_cons.mp hc with hc0 | hcr
      · by_cases hmem : c ∈ rest.map CommandConfig.command
        · exact ih5 c hmem
        · rw [ih6 c hmem, lookupTiming_setTiming, if_pos hc0.symm]
      · exact ih5 c hcr
    · intro c hc
      rw [List.mem_cons] at hc
      push_neg at hc
      rw [ih6 c hc.2, lookupTiming_setTiming, if_neg (fun h => hc.1 h.symm)]

theorem processPhase_failed (w : World) (sp : Option String)
    (allow : Option (List String)) (seq : Bool) (ctx : PhaseCtx) (p : Phase)
    (h : ctx.phaseFailed = true) :
    ∃ b, processPhase w sp allow seq ctx p =
      { ctx with startPhaseFound := b, st := skipPhaseTasks p ctx.st } := by
  unfold processPhase processPhaseBody
  split_ifs <;>
    first
      | exact ⟨ctx.startPhaseFound, rfl⟩
      | exact ⟨true, rfl⟩

theorem processPhases_failed (w : World) (sp : Option String)
    (allow : Option (List String)) (seq : Bool) :
    ∀ (ps : List Phase) (ctx : PhaseCtx), ctx.phaseFailed = true →
      ∃ b, processPhases w sp allow seq ctx ps =
        { ctx with startPhaseFound := b,
                   st := ps.foldl (fun s p => skipPhaseTasks p s) ctx.st } := by
  intro ps
  induction ps with
  | nil => intro ctx h; exact ⟨ctx.startPhaseFound, rfl⟩
  | cons p ps ih =>
    intro ctx h
    unfold processPhases
    obtain ⟨b, hb⟩ := processPhase_failed w sp allow seq ctx p h
    rw [hb]
    obtain ⟨b', hb'⟩ :=
      ih { ctx with startPhaseFound := b, st := skipPhaseTasks p ctx.st } h
    rw [hb']
    exact ⟨b', rfl⟩

theorem skipPhasesFold_effect :
    ∀ (ps : List Phase) (st : OrchState),
      (ps.foldl (fun s p => skipPhaseTasks p s) st).failedCommands =
        st.failedCommands ∧
      (ps.foldl (fun s p => skipPhaseTasks p s) st).skippedCommands =
        st.skippedCommands ++ phasesCommands ps ∧
      (ps.foldl (fun s p => skipPhaseTasks p s) st).invoked = st.invoked ∧
      (ps.foldl (fun s p => skipPhaseTasks p s) st).ran = st.ran ∧
      (∀ c, c ∈ phasesCommands ps →
        lookupTiming (ps.foldl (fun s p => skipPhaseTasks p s) st).timings c = some 0) ∧
      (∀ c, c ∉ phasesCommands ps →
        lookupTiming (ps.foldl (fun s p => skipPhaseTasks p s) st).timings c =
          lookupTiming st.timings c) := by
  intro ps
  induction ps with
  | nil => intro st; simp [phasesCommands]
  | cons p ps ih =>
    intro st
    simp only [List.foldl_cons]
    obtain ⟨ih1, ih2, ih3, ih4, ih5, ih6⟩ := ih (skipPhaseTasks p st)
    obtain ⟨s1, s2, s3, s4, s5, s6⟩ := skipFold_effect p.parallel st
    have hpc : phasesCommands (p :: ps) = p.commands ++ phasesCommands ps := rfl
    refine ⟨?_, ?_, ?_, ?_, ?_, ?_⟩
    · rw [ih1]; exact s1
    · rw [ih2, hpc]
      unfold skipPhaseTasks at *
      rw [s2]
      simp [Phase.commands]
    · rw [ih3]; exact s3
    · rw [ih4]; exact s4
    · intro c hc
      rw [hpc, List.mem_append] at hc
      rcases hc with hc | hc
      · by_cases hmem : c ∈ phasesCommands ps
        · exact ih5 c hmem
        · rw [ih6 c hmem]
          exact s5 c (by simpa [Phase.commands] using hc)
      · exact ih5 c hc
    · intro c hc
      rw [hpc, List.mem_append] at hc
      push_neg at hc
      rw [ih6 c hc.2]
      exact s6 c (by simpa [Phase.commands] using hc.1)

/-- C6: (first part) in a run with phases, a phase whose execution yields
any false task result is marked failed (`phaseFailed` and `hasFailures`
are set); (second part) once `phaseFailed` is set, every task of every
remaining phase is appended to the skipped list with its duration
recorded as exactly 0, no `executeCommand` call is entered and nothing is
handed to the process manager, and the flag stays set for the rest of the
run. -/
theorem C6_phase_failure_marks_and_skips (w : World) (sp : Option String)
    (allow : Option (List String)) (seq : Bool) :
    (∀ (ctx : PhaseCtx) (p : Phase), ctx.phaseFailed = false →
      (jsTruthyStr sp && !ctx.startPhaseFound) = false →
      (p.optional && allow.isSome && !((allow.getD []).contains p.name)) = false →
      (if seq then runPhaseSeq w p.parallel ctx.st
       else runPhasePar w p.parallel ctx.st).1 = true →
      (processPhase w sp allow seq ctx p).phaseFailed = true ∧
      (processPhase w sp allow seq ctx p).hasFailures = true) ∧
    (∀ (ctx : PhaseCtx) (ps : List Phase), ctx.phaseFailed = true →
      (processPhases w sp allow seq ctx ps).phaseFailed = true ∧
      (processPhases w sp allow seq ctx ps).st.invoked = ctx.st.invoked ∧
      (processPhases w sp allow seq ctx ps).st.ran = ctx.st.ran ∧
      (processPhases w sp allow seq ctx ps).st.failedCommands =
        ctx.st.failedCommands ∧
      (processPhases w sp allow seq ctx ps).st.skippedCommands =
        ctx.st.skippedCommands ++ phasesCommands ps ∧
      (∀ c, c ∈ phasesCommands ps →
        lookupTiming (processPhases w sp allow seq ctx ps).st.timings c =
          some 0)) := by
  constructor
  · intro ctx p hpf hstart hopt hres
    unfold processPhase
    rw [hstart]
    simp only [Bool.false_eq_true, if_false]
    unfold processPhaseBody
    rw [hopt]
    simp only [Bool.false_eq_true, if_false]
    rw [hpf]
    simp only [Bool.false_eq_true, if_false]
    rw [hres]
    exact ⟨rfl, rfl⟩
  · intro ctx ps hpf
    obtain ⟨b, hb⟩ := processPhases_failed w sp allow seq ps ctx hpf
    rw [hb]
    obtain ⟨e1, e2, e3, e4, e5, e6⟩ := skipPhasesFold_effect ps ctx.st
    exact ⟨hpf, e3, e4, e1, e2, e5⟩

/-- C6 witness: a phase whose single task fails is marked failed, and a
subsequent phase processed under the failed flag has its task "d1"
recorded skipped with duration 0 and is never entered. -/
theorem C6_phase_failure_marks_and_skips_witness :
    (processPhase ⟨fun _ _ => (false, "boom"), fun _ _ => false, fun _ => 5⟩
      none none false PhaseCtx.init
      ⟨"test", false,
        [.mk "t1" [] false "enabled" 1 none none false none none none]⟩).phaseFailed
      = true ∧
    (processPhase ⟨fun _ _ => (false, "boom"), fun _ _ => false, fun _ => 5⟩
      none none false PhaseCtx.init
      ⟨"test", false,
        [.mk "t1" [] false "enabled" 1 none none false none none none]⟩).hasFailures
      = true ∧
    (processPhases ⟨fun _ _ => (false, "boom"), fun _ _ => false, fun _ => 5⟩
      none none false ⟨true, true, false, OrchState.init⟩
      [⟨"deploy", false,
        [.mk "d1" [] false "enabled" 1 none none false none none
          none]⟩]).st.skippedCommands =
      OrchState.init.skippedCommands ++
        phasesCommands
          [⟨"deploy", false,
            [.mk "d1" [] false "enabled" 1 none none false none none none]⟩] ∧
    (processPhases ⟨fun _ _ => (false, "boom"), fun _ _ => false, fun _ => 5⟩
      none none false ⟨true, true, false, OrchState.init⟩
      [⟨"deploy", false,
        [.mk "d1" [] false "enabled" 1 none none false none none
          none]⟩]).st.invoked = OrchState.init.invoked ∧
    lookupTiming
      (processPhases ⟨fun _ _ => (false, "boom"), fun _ _ => false, fun _ => 5⟩
        none none false ⟨true, true, false, OrchState.init⟩
        [⟨"deploy", false,
          [.mk "d1" [] false "enabled" 1 none none false none none
            none]⟩]).st.timings "d1" = some 0 := by
  have h := C6_phase_failure_marks_and_skips
    ⟨fun _ _ => (false, "boom"), fun _ _ => false, fun _ => 5⟩ none none false
  have h1 := h.1 PhaseCtx.init
    ⟨"test", false, [.mk "t1" [] false "enabled" 1 none none false none none none]⟩
    rfl rfl rfl
    (by simp [runPhasePar, executeCommand, execDeps, retryFrom, cmdFor,
      checkUrlOf, OrchState.init, PhaseCtx.init])
  have h2 := h.2 ⟨true, true, false, OrchState.init⟩
    [⟨"deploy", false, [.mk "d1" [] false "enabled" 1 none none false none none none]⟩]
    rfl
  exact ⟨h1.1, h1.2, h2.2.2.2.2.1, h2.2.1,
    h2.2.2.2.2.2 "d1"
      (by simp [phasesCommands, Phase.commands, CommandConfig.command])⟩

/-- C5: what the code actually does with optional phases, at the claim's
failing input.  (1) With no allow-list supplied at all, a phase flagged
optional is executed: its task "a" is entered by `executeCommand`.
(2) With an allow-list `["main"]` that omits the optional phase "opt",
the phase is skipped — its task "a" is recorded skipped and never entered
— but the recorded skip makes the whole run exit 1, so the skip is
treated as a failure of the run. -/
theorem C5_optional_phase_code_behavior :
    (orchestratorRun ⟨fun _ _ => (true, ""), fun _ _ => false, fun _ => 5⟩
        ⟨none, none, none, true⟩
        (.phased [⟨"opt", true,
          [.mk "a" [] false "enabled" 1 none none false none none none]⟩])
        none none false).st.invoked = ["a"] ∧
    (orchestratorRun ⟨fun _ _ => (true, ""), fun _ _ => false, fun _ => 5⟩
        ⟨none, none, none, true⟩
        (.phased [⟨"opt", true,
            [.mk "a" [] false "enabled" 1 none none false none none none]⟩,
          ⟨"main", false,
            [.mk "b" [] false "enabled" 1 none none false none none none]⟩])
        none (some ["main"]) false).st.skippedCommands = ["a"] ∧
    (orchestratorRun ⟨fun _ _ => (true, ""), fun _ _ => false, fun _ => 5⟩
        ⟨none, none, none, true⟩
        (.phased [⟨"opt", true,
            [.mk "a" [] false "enabled" 1 none none false none none none]⟩,
          ⟨"main", false,
            [.mk "b" [] false "enabled" 1 none none false none none none]⟩])
        none (some ["main"]) false).st.invoked = ["b"] ∧
    (orchestratorRun ⟨fun _ _ => (true, ""), fun _ _ => false, fun _ => 5⟩
        ⟨none, none, none, true⟩
        (.phased [⟨"opt", true,
            [.mk "a" [] false "enabled" 1 none none false none none none]⟩,
          ⟨"main", false,
            [.mk "b" [] false "enabled" 1 none none false none none none]⟩])
        none (some ["main"]) false).exitCode = 1 := by
  refine ⟨?_, ?_, ?_, ?_⟩ <;>
    simp [orchestratorRun, shouldSkipExecution, hasGitChanges, jsTruthyStr,
      processPhases, processPhase, processPhaseBody, skipPhaseTasks,
      runPhasePar, runPhaseSeq, executeCommand, execDeps, retryFrom, cmdFor,
      checkUrlOf, finalizeRun, OrchState.init, PhaseCtx.init, setTiming,
      Phase.commands, CommandConfig.command]

/-- C4 witness: with the current hash resolving to "abc", the same hash
cached on disk and a clean porcelain status, `shouldSkipExecution` is
characterized by the four conditions. -/
theorem C4_shouldSkipExecution_iff_witness :
    (shouldSkipExecution ⟨some "abc", some "abc", some "", true⟩ = true ↔
      ∃ h, h ≠ "" ∧
        (GitWorld.mk (some "abc") (some "abc") (some "") true).revParse = some h ∧
        (GitWorld.mk (some "abc") (some "abc") (some "") true).cachedHash = some h ∧
        (GitWorld.mk (some "abc") (some "abc") (some "") true).statusPorcelain =
          some "") ∧
    ((GitWorld.mk (some "abc") (some "abc") (some "") true).revParse = none →
      shouldSkipExecution ⟨some "abc", some "abc", some "", true⟩ = false) ∧
    ((GitWorld.mk (some "abc") (some "abc") (some "") true).statusPorcelain = none →
      shouldSkipExecution ⟨some "abc", some "abc", some "", true⟩ = false) :=
  C4_shouldSkipExecution_iff ⟨some "abc", some "abc", some "", true⟩

/-- C10 witness: a concrete enabled task with `attempts = 0` returns
false from `executeCommand` while leaving the failed and skipped lists
untouched and showing up as successful in the summary. -/
theorem C10_zero_attempts_silent_failure_witness :
    (CommandConfig.mk "lint" [] false "enabled" 0 none none false none none
      none).attempts = 0 ∧
    ((executeCommand ⟨fun _ _ => (true, "ok"), fun _ _ => false, fun _ => 9⟩
        (.mk "lint" [] false "enabled" 0 none none false none none none)
        [] OrchState.init).1 = false ∧
     (executeCommand ⟨fun _ _ => (true, "ok"), fun _ _ => false, fun _ => 9⟩
        (.mk "lint" [] false "enabled" 0 none none false none none none)
        [] OrchState.init).2.failedCommands = OrchState.init.failedCommands ∧
     (executeCommand ⟨fun _ _ => (true, "ok"), fun _ _ => false, fun _ => 9⟩
        (.mk "lint" [] false "enabled" 0 none none false none none none)
        [] OrchState.init).2.skippedCommands = OrchState.init.skippedCommands ∧
     (executeCommand ⟨fun _ _ => (true, "ok"), fun _ _ => false, fun _ => 9⟩
        (.mk "lint" [] false "enabled" 0 none none false none none none)
        [] OrchState.init).2.ran = OrchState.init.ran ∧
     summaryStatus
       (executeCommand ⟨fun _ _ => (true, "ok"), fun _ _ => false, fun _ => 9⟩
         (.mk "lint" [] false "enabled" 0 none none false none none none)
         [] OrchState.init).2
       (CommandConfig.mk "lint" [] false "enabled" 0 none none false none none
         none).command = .success) :=
  ⟨rfl,
   C10_zero_attempts_silent_failure
     ⟨fun _ _ => (true, "ok"), fun _ _ => false, fun _ => 9⟩
     (.mk "lint" [] false "enabled" 0 none none false none none none)
     [] OrchState.init
     rfl rfl rfl rfl (by simp [CommandConfig.command])
     (by simp [OrchState.init]) (by simp [OrchState.init])⟩
